import Mathlib

/-!
Verification of the Butterfly subdivision implementation
(`src/Butterfly subdivision/application.cpp`).

The source mesh uses a half-edge representation.  We embed it shallowly:
half-edges live in an arena addressed by natural-number indices, and the
`next` / `prev` / `twin` pointers (which may be null on a boundary) become
`Option Nat` fields.  Positions are modelled with exact rational
coordinates (`ℚ`), standing for the real-number semantics of the
floating-point code.  Navigation through a possibly-missing link is
`Option`-valued, so dereferencing an absent link yields `none` rather than
undefined behaviour.
-/

set_option autoImplicit false

namespace Butterfly

/-- A 3-D position with exact rational coordinates (models `glm::vec3`). -/
structure Vec3 where
  x : ℚ
  y : ℚ
  z : ℚ
  deriving DecidableEq, Repr

/-- A mesh vertex: carries its position (models `Vertex`). -/
structure Vertex where
  position : Vec3
  deriving DecidableEq, Repr

/-- One half-edge record (models `Edge`): `start`/`endV` are vertex
indices; `next`, `prev`, `twin` are half-edge indices, absent (`none`)
when the corresponding pointer would be null. -/
structure EdgeRec where
  start : Nat
  endV : Nat
  next : Option Nat
  prev : Option Nat
  twin : Option Nat
  deriving DecidableEq, Repr

/-- A source half-edge mesh: vertex arena, half-edge arena, and one
representative half-edge index per face (models `SubdivisionTriangleMesh`
as read by the subdivision code: `face.edge` is the representative). -/
structure Mesh where
  vertices : List Vertex
  edges : List EdgeRec
  faces : List Nat
  deriving DecidableEq, Repr

/-- Look up a half-edge record by index. -/
def Mesh.edge? (m : Mesh) (i : Nat) : Option EdgeRec :=
  m.edges.get? i

/-- Look up a vertex by index. -/
def Mesh.vtx? (m : Mesh) (i : Nat) : Option Vertex :=
  m.vertices.get? i

/-- Follow the `next` pointer from an (optionally resolved) half-edge. -/
def Mesh.nxt (m : Mesh) (i : Option Nat) : Option Nat :=
  i.bind fun j => (m.edge? j).bind EdgeRec.next

/-- Follow the `prev` pointer from an (optionally resolved) half-edge. -/
def Mesh.prv (m : Mesh) (i : Option Nat) : Option Nat :=
  i.bind fun j => (m.edge? j).bind EdgeRec.prev

/-- Follow the `twin` pointer from an (optionally resolved) half-edge. -/
def Mesh.twn (m : Mesh) (i : Option Nat) : Option Nat :=
  i.bind fun j => (m.edge? j).bind EdgeRec.twin

/-- The `start` vertex index of an (optionally resolved) half-edge. -/
def Mesh.startOf (m : Mesh) (i : Option Nat) : Option Nat :=
  i.bind fun j => (m.edge? j).map EdgeRec.start

/-- The `end` vertex index of an (optionally resolved) half-edge. -/
def Mesh.endOf (m : Mesh) (i : Option Nat) : Option Nat :=
  i.bind fun j => (m.edge? j).map EdgeRec.endV

/-- The position of an (optionally resolved) vertex index. -/
def Mesh.pos? (m : Mesh) (i : Option Nat) : Option Vec3 :=
  i.bind fun j => (m.vtx? j).map Vertex.position

/-- Stencil vertex index `P0 = edge->start` (application.cpp line 37). -/
def pathP0 (m : Mesh) (e : Nat) : Option Nat :=
  m.startOf (some e)

/-- Stencil vertex index `P1 = edge->end` (line 38). -/
def pathP1 (m : Mesh) (e : Nat) : Option Nat :=
  m.endOf (some e)

/-- Stencil vertex index `P2 = edge->next->end` (line 39). -/
def pathP2 (m : Mesh) (e : Nat) : Option Nat :=
  m.endOf (m.nxt (some e))

/-- Stencil vertex index `P3 = edge->twin->next->end` (line 40). -/
def pathP3 (m : Mesh) (e : Nat) : Option Nat :=
  m.endOf (m.nxt (m.twn (some e)))

/-- Stencil vertex index `P4 = edge->next->twin->prev->start` (line 41). -/
def pathP4 (m : Mesh) (e : Nat) : Option Nat :=
  m.startOf (m.prv (m.twn (m.nxt (some e))))

/-- Stencil vertex index `P5 = edge->prev->twin->prev->start` (line 42). -/
def pathP5 (m : Mesh) (e : Nat) : Option Nat :=
  m.startOf (m.prv (m.twn (m.prv (some e))))

/-- Stencil vertex index `P6 = edge->twin->prev->twin->prev->start`
(line 43). -/
def pathP6 (m : Mesh) (e : Nat) : Option Nat :=
  m.startOf (m.prv (m.twn (m.prv (m.twn (some e)))))

/-- Stencil vertex index `P7 = edge->twin->next->twin->prev->start`
(line 44). -/
def pathP7 (m : Mesh) (e : Nat) : Option Nat :=
  m.startOf (m.prv (m.twn (m.nxt (m.twn (some e)))))

/-- The weighted combination of the 8 stencil positions, one coordinate
axis at a time, exactly as written on lines 51-56 of application.cpp:
weights `0.5, 0.5, 2w, 2w, -w, -w, -w, -w`. -/
def stencil (w : ℚ) (p0 p1 p2 p3 p4 p5 p6 p7 : Vec3) : Vec3 where
  x := p0.x * (1/2) + p1.x * (1/2) + p2.x * 2 * w + p3.x * 2 * w +
    p4.x * (-w) + p5.x * (-w) + p6.x * (-w) + p7.x * (-w)
  y := p0.y * (1/2) + p1.y * (1/2) + p2.y * 2 * w + p3.y * 2 * w +
    p4.y * (-w) + p5.y * (-w) + p6.y * (-w) + p7.y * (-w)
  z := p0.z * (1/2) + p1.z * (1/2) + p2.z * 2 * w + p3.z * 2 * w +
    p4.z * (-w) + p5.z * (-w) + p6.z * (-w) + p7.z * (-w)

/-- `Application::vertex_rule` (lines 14-22): returns the vertex's own
position, unchanged. -/
def vertex_rule (vertex : Vertex) : Vec3 :=
  vertex.position

/-- `Application::edge_rule` (lines 33-60): collect the 8 stencil
vertices by half-edge navigation, then combine their positions with
weights `0.5, 0.5, 2w, 2w, -w, -w, -w, -w`.  Dereferencing an absent
link in the C++ would be undefined behaviour; here every navigation step
is `Option`-valued and a missing link makes the whole rule return
`none`. -/
def edge_rule (m : Mesh) (e : Nat) (w : ℚ) : Option Vec3 :=
  (m.pos? (pathP0 m e)).bind fun p0 =>
  (m.pos? (pathP1 m e)).bind fun p1 =>
  (m.pos? (pathP2 m e)).bind fun p2 =>
  (m.pos? (pathP3 m e)).bind fun p3 =>
  (m.pos? (pathP4 m e)).bind fun p4 =>
  (m.pos? (pathP5 m e)).bind fun p5 =>
  (m.pos? (pathP6 m e)).bind fun p6 =>
  (m.pos? (pathP7 m e)).bind fun p7 =>
  some (stencil w p0 p1 p2 p3 p4 p5 p6 p7)

/-- Modelled from the spec: the key type of the builder's deduplication
map.  `SubdivisionTriangleMeshBuilder` lives in `application.hpp`, which
is not in `src/`; per §3/§4.2 of the spec the map is keyed by source
vertex identity or by an unordered (canonicalized) source edge. -/
inductive SrcKey where
  | vtx (i : Nat)
  | edg (a b : Nat)
  deriving DecidableEq, Repr

/-- Modelled from the spec: the canonical (unordered) key of a source
edge with endpoint vertex indices `a`, `b`, so that an edge and its twin
hash identically (spec §9: "edge keys canonicalized, e.g. min/max of the
two endpoint identities"). -/
def edgeKey (a b : Nat) : SrcKey :=
  SrcKey.edg (min a b) (max a b)

/-- Modelled from the spec: the destination-builder state
(`SubdivisionTriangleMeshBuilder`, not in `src/`): accumulated
destination vertex positions (index = destination vertex id), inserted
triangles, and the source-key → destination-vertex deduplication map. -/
structure Builder where
  verts : List Vec3
  tris : List (Nat × Nat × Nat)
  kmap : List (SrcKey × Nat)
  deriving DecidableEq, Repr

/-- The empty builder a refinement call starts from. -/
def Builder.empty : Builder :=
  { verts := [], tris := [], kmap := [] }

/-- Modelled from the spec: `find_dst_vertex_of` returns the destination
vertex already created for a source key, or "not found" (spec §4.2
`find_existing`). -/
def find_dst_vertex_of (b : Builder) (k : SrcKey) : Option Nat :=
  (b.kmap.find? fun p => p.1 == k).map Prod.snd

/-- Modelled from the spec: `insert_vertex` creates a new destination
vertex at `pos`, records it under `k`, and returns it (spec §4.2). -/
def insert_vertex (b : Builder) (pos : Vec3) (k : SrcKey) : Nat × Builder :=
  (b.verts.length,
    { b with
      verts := b.verts ++ [pos]
      kmap := b.kmap ++ [(k, b.verts.length)] })

/-- Modelled from the spec: `insert_triangle` records a face over three
already-created destination vertices, in the given winding order
(spec §4.2). -/
def insert_triangle (b : Builder) (a c d : Nat) : Builder :=
  { b with tris := b.tris ++ [(a, c, d)] }

/-- Observable events of one refinement pass, in execution order:
a triangle insertion, the `finalize()` call, the invariant-checker
call. -/
inductive Event where
  | tri
  | fin
  | chk
  deriving DecidableEq, Repr

/-- The vertex-rule loop of `butterfly_subdivision` (lines 90-109):
for each face vertex, look up its destination vertex; if absent, run
`vertex_rule` and insert; in both branches push exactly one destination
vertex onto `vertex_rule_vertices` (the accumulator `acc`). -/
def vertexLoop (m : Mesh) : List Nat → Builder → List Nat →
    Option (Builder × List Nat)
  | [], b, acc => some (b, acc)
  | vi :: rest, b, acc =>
    match find_dst_vertex_of b (SrcKey.vtx vi) with
    | some d => vertexLoop m rest b (acc ++ [d])
    | none =>
      match m.vtx? vi with
      | none => none
      | some v =>
        let pos := vertex_rule v
        let (d, b) := insert_vertex b pos (SrcKey.vtx vi)
        vertexLoop m rest b (acc ++ [d])

/-- The edge-rule loop of `butterfly_subdivision` (lines 117-136):
for each face edge, look up its destination vertex under the canonical
edge key; if absent, run `edge_rule` and insert; in both branches push
exactly one destination vertex onto `edge_rule_vertices` (`acc`). -/
def edgeLoop (m : Mesh) (w : ℚ) : List Nat → Builder → List Nat →
    Option (Builder × List Nat)
  | [], b, acc => some (b, acc)
  | ei :: rest, b, acc =>
    match m.edge? ei with
    | none => none
    | some r =>
      match find_dst_vertex_of b (edgeKey r.start r.endV) with
      | some d => edgeLoop m w rest b (acc ++ [d])
      | none =>
        match edge_rule m ei w with
        | none => none
        | some pos =>
          let (d, b) := insert_vertex b pos (edgeKey r.start r.endV)
          edgeLoop m w rest b (acc ++ [d])

/-- The body of the per-face loop of `butterfly_subdivision`
(lines 77-144): gather the face's 3 vertices (`face.edge->start`,
`face.edge->end`, `face.edge->next->end`) and 3 edges (`face.edge`,
`face.edge->next`, `face.edge->prev`), run both rule loops, then insert
the 4 child triangles (lines 140-143) via the `.at(0)`, `.at(1)`,
`.at(2)` accesses, modelled as `List.get?`.  Appends one `Event.tri`
per inserted triangle.  `insertFour` is the sequence of the four
`insert_triangle` calls in source order. -/
def insertFour (b : Builder) (v0 v1 v2 m0 m1 m2 : Nat) : Builder :=
  insert_triangle
    (insert_triangle (insert_triangle (insert_triangle b v0 m0 m2) m0 v1 m1)
      m2 m1 v2) m0 m1 m2

/-- The bounds-checked accesses `.at(0)`, `.at(1)`, `.at(2)` into
`vertex_rule_vertices` and `edge_rule_vertices` (lines 140-143),
followed by the four `insert_triangle` calls: `none` models a thrown
`std::out_of_range`. -/
def emitTriangles (b : Builder) (vrv erv : List Nat) : Option Builder :=
  match vrv.get? 0, vrv.get? 1, vrv.get? 2,
      erv.get? 0, erv.get? 1, erv.get? 2 with
  | some v0, some v1, some v2, some m0, some m1, some m2 =>
    some (insertFour b v0 v1 v2 m0 m1 m2)
  | _, _, _, _, _, _ => none

def processFace (m : Mesh) (w : ℚ) (fe : Nat) (s : Builder × List Event) :
    Option (Builder × List Event) :=
  match m.edge? fe with
  | none => none
  | some r =>
    match r.next, r.prev with
    | some n, some p =>
      match m.edge? n with
      | none => none
      | some rn =>
        match vertexLoop m [r.start, r.endV, rn.endV] s.1 [] with
        | none => none
        | some bv =>
          match edgeLoop m w [fe, n, p] bv.1 [] with
          | none => none
          | some be =>
            match emitTriangles be.1 bv.2 be.2 with
            | none => none
            | some b4 =>
              some (b4, s.2 ++ [Event.tri, Event.tri, Event.tri, Event.tri])
    | _, _ => none

/-- The face iteration of `butterfly_subdivision` (line 77): process the
source faces in order, threading the builder state and the event
trace. -/
def runFaces (m : Mesh) (w : ℚ) : List Nat → Builder × List Event →
    Option (Builder × List Event)
  | [], s => some s
  | f :: fs, s => (processFace m w f s).bind (runFaces m w fs)

/-- The directed edges of the inserted triangles, three per triangle:
`(a,b), (b,c), (c,a)` for triangle `(a,b,c)`. -/
def triEdges (tris : List (Nat × Nat × Nat)) : List (Nat × Nat) :=
  tris.flatMap fun t => [(t.1, t.2.1), (t.2.1, t.2.2), (t.2.2, t.1)]

/-- The unique index carrying the reversed directed edge `(b, a)`, if
exactly one exists. -/
def findTwin (es : List (Nat × Nat)) (a b : Nat) : Option Nat :=
  match (List.range es.length).filter (fun j => es.get? j == some (b, a)) with
  | [j] => some j
  | _ => none

/-- Modelled from the spec: `SubdivisionTriangleMeshBuilder::finalize`
lives in `application.hpp`, which is not in `src/`.  Per spec §4.2 it is
called once after all triangles are inserted, derives `next`/`prev`
within each triangle and resolves `twin` pairings across triangles that
share two vertices, and fails if an edge is shared by more than 2
triangles or remains unmatched in a mesh expected to be closed. -/
def finalize (b : Builder) : Option Mesh :=
  let es := triEdges b.tris
  let build := fun (i : Nat) =>
    (es.get? i).bind fun pr =>
      (findTwin es pr.1 pr.2).map fun tw =>
        { start := pr.1
          endV := pr.2
          next := some (3 * (i / 3) + (i % 3 + 1) % 3)
          prev := some (3 * (i / 3) + (i % 3 + 2) % 3)
          twin := some tw : EdgeRec }
  ((List.range es.length).mapM build).map fun rs =>
    { vertices := b.verts.map Vertex.mk
      edges := rs
      faces := (List.range b.tris.length).map fun t => 3 * t }

/-- `Application::butterfly_subdivision` (lines 73-149): starting from an
empty builder, process every source face, then call `finalize()` once,
then hand the finalized destination mesh to the external invariant
checker (`check_mesh_invariants`, modelled as the parameter `checker`)
and propagate its verdict.  The result carries the final builder state,
the finalized destination mesh and the checker verdict; the event list
is the execution-order trace of triangle insertions, the finalize call
and the checker call.  A missing link anywhere makes the whole pass fail
with no partial output. -/
def butterfly_subdivision (src : Mesh) (w : ℚ) (checker : Mesh → Bool) :
    Option (Builder × Mesh × Bool) × List Event :=
  match runFaces src w src.faces (Builder.empty, []) with
  | none => (none, [])
  | some (b, tr) =>
    match finalize b with
    | none => (none, tr ++ [Event.fin])
    | some dm => (some (b, dm, checker dm), tr ++ [Event.fin, Event.chk])

/-- A closed tetrahedron: 4 vertices, 12 half-edges, 4 faces with
outward-consistent winding `(0,1,2)`, `(0,2,3)`, `(0,3,1)`, `(1,3,2)`. -/
def tetraMesh : Mesh where
  vertices :=
    [⟨⟨0, 0, 0⟩⟩, ⟨⟨1, 0, 0⟩⟩, ⟨⟨0, 1, 0⟩⟩, ⟨⟨0, 0, 1⟩⟩]
  edges :=
    [⟨0, 1, some 1, some 2, some 8⟩,
     ⟨1, 2, some 2, some 0, some 11⟩,
     ⟨2, 0, some 0, some 1, some 3⟩,
     ⟨0, 2, some 4, some 5, some 2⟩,
     ⟨2, 3, some 5, some 3, some 10⟩,
     ⟨3, 0, some 3, some 4, some 6⟩,
     ⟨0, 3, some 7, some 8, some 5⟩,
     ⟨3, 1, some 8, some 6, some 9⟩,
     ⟨1, 0, some 6, some 7, some 0⟩,
     ⟨1, 3, some 10, some 11, some 7⟩,
     ⟨3, 2, some 11, some 9, some 4⟩,
     ⟨2, 1, some 9, some 10, some 1⟩]
  faces := [0, 3, 6, 9]

/-- Two triangles glued along all three edges (a closed "pillow"): the
smallest closed mesh in which two faces share an edge. -/
def dblMesh : Mesh where
  vertices := [⟨⟨0, 0, 0⟩⟩, ⟨⟨1, 0, 0⟩⟩, ⟨⟨0, 1, 0⟩⟩]
  edges :=
    [⟨0, 1, some 1, some 2, some 3⟩,
     ⟨1, 2, some 2, some 0, some 5⟩,
     ⟨2, 0, some 0, some 1, some 4⟩,
     ⟨1, 0, some 4, some 5, some 0⟩,
     ⟨0, 2, some 5, some 3, some 2⟩,
     ⟨2, 1, some 3, some 4, some 1⟩]
  faces := [0, 3]

/-- A single triangle with no twins: every edge is an open boundary, so
no edge-rule stencil is resolvable. -/
def openTriMesh : Mesh where
  vertices := [⟨⟨0, 0, 0⟩⟩, ⟨⟨1, 0, 0⟩⟩, ⟨⟨0, 1, 0⟩⟩]
  edges :=
    [⟨0, 1, some 1, some 2, none⟩,
     ⟨1, 2, some 2, some 0, none⟩,
     ⟨2, 0, some 0, some 1, none⟩]
  faces := [0]

/-- The spec's wording of the edge-rule result (spec §4.1 / §8 "Weight
conservation"): the affine combination
`0.5·P0 + 0.5·P1 + 2w·P2 + 2w·P3 − w·P4 − w·P5 − w·P6 − w·P7`,
computed independently per coordinate axis.  Stated from the spec's
words, to be compared with `stencil`, which is translated from the
code. -/
def affineStencilSpec (w : ℚ) (p0 p1 p2 p3 p4 p5 p6 p7 : Vec3) : Vec3 where
  x := (1/2) * p0.x + (1/2) * p1.x + 2 * w * p2.x + 2 * w * p3.x -
    w * p4.x - w * p5.x - w * p6.x - w * p7.x
  y := (1/2) * p0.y + (1/2) * p1.y + 2 * w * p2.y + 2 * w * p3.y -
    w * p4.y - w * p5.y - w * p6.y - w * p7.y
  z := (1/2) * p0.z + (1/2) * p1.z + 2 * w * p2.z + 2 * w * p3.z -
    w * p4.z - w * p5.z - w * p6.z - w * p7.z

/-- The 8 stencil weights in stencil order (spec §4.1:
`0.5, 0.5, 2w, 2w, −w, −w, −w, −w`). -/
def stencilWeights (w : ℚ) : List ℚ :=
  [1/2, 1/2, 2 * w, 2 * w, -w, -w, -w, -w]

/-- The exact midpoint `0.5·P0 + 0.5·P1` of two positions, per axis. -/
def midpointV (p q : Vec3) : Vec3 where
  x := p.x * (1/2) + q.x * (1/2)
  y := p.y * (1/2) + q.y * (1/2)
  z := p.z * (1/2) + q.z * (1/2)

/-- The refinement run on the tetrahedron with tension weight `w = 0`
and a trivially accepting invariant checker. -/
def tetraOut : Option (Builder × Mesh × Bool) × List Event :=
  butterfly_subdivision tetraMesh 0 (fun _ => true)

/-- The final builder state of the tetrahedron run. -/
def tetraBuilder : Builder :=
  (tetraOut.1.map fun r => r.1).getD Builder.empty

/-- The face-loop (builder accumulation) stage of refining the glued
double triangle with `w = 0`. -/
def dblFacesOut : Option (Builder × List Event) :=
  runFaces dblMesh 0 dblMesh.faces (Builder.empty, [])

/-- The builder state after the face loop of the double-triangle run. -/
def dblBuilder : Builder :=
  (dblFacesOut.map fun s => s.1).getD Builder.empty

/-- The finalized destination mesh of the tetrahedron run. -/
def tetraDst : Mesh :=
  (tetraOut.1.map fun r => r.2.1).getD { vertices := [], edges := [], faces := [] }

/-- The event trace of the tetrahedron run. -/
def tetraTrace : List Event :=
  tetraOut.2

/-- The checker verdict of the tetrahedron run. -/
def tetraOk : Bool :=
  (tetraOut.1.map fun r => r.2.2).getD false

/-- The vertex-rule loop of the tetrahedron's first face, in
isolation. -/
def tetraVLoop : Option (Builder × List Nat) :=
  vertexLoop tetraMesh [0, 1, 2] Builder.empty []

/-- The builder produced by `tetraVLoop`. -/
def tetraVLb : Builder :=
  (tetraVLoop.map Prod.fst).getD Builder.empty

/-- The `vertex_rule_vertices` list produced by `tetraVLoop`. -/
def tetraVLl : List Nat :=
  (tetraVLoop.map Prod.snd).getD []

/-- The edge-rule loop of the tetrahedron's first face, continuing from
`tetraVLb`. -/
def tetraELoop : Option (Builder × List Nat) :=
  edgeLoop tetraMesh 0 [0, 1, 2] tetraVLb []

/-- The builder produced by `tetraELoop`. -/
def tetraELb : Builder :=
  (tetraELoop.map Prod.fst).getD Builder.empty

/-- The `edge_rule_vertices` list produced by `tetraELoop`. -/
def tetraELl : List Nat :=
  (tetraELoop.map Prod.snd).getD []

/-- The keys currently recorded in a builder's deduplication map. -/
def Builder.keys (b : Builder) : List SrcKey :=
  b.kmap.map Prod.fst

/-- The deduplication invariant: no source key is recorded twice, and
destination vertices and map entries are in 1-1 correspondence. -/
def BuilderInv (b : Builder) : Prop :=
  b.keys.Nodup ∧ b.verts.length = b.kmap.length

/-!  Helper lemmas about the rule loops, the per-face step and the face
iteration.  -/

theorem find_dst_vertex_of_eq_none {b : Builder} {k : SrcKey} :
    find_dst_vertex_of b k = none ↔ k ∉ b.keys := by
  unfold find_dst_vertex_of Builder.keys
  rw [Option.map_eq_none', List.find?_eq_none]
  simp only [beq_iff_eq, List.mem_map]
  constructor
  · intro h hk
    obtain ⟨p, hp, he⟩ := hk
    exact h p hp he
  · intro h p hp he
    exact h ⟨p, hp, he⟩

theorem vertexLoop_length {m : Mesh} :
    ∀ {vs : List Nat} {b : Builder} {acc : List Nat} {b' : Builder}
      {l : List Nat}, vertexLoop m vs b acc = some (b', l) →
      l.length = acc.length + vs.length := by
  intro vs
  induction vs with
  | nil =>
    intro b acc b' l h
    simp [vertexLoop] at h
    simp [h.2.symm]
  | cons v rest ih =>
    intro b acc b' l h
    rw [vertexLoop] at h
    cases hf : find_dst_vertex_of b (SrcKey.vtx v) with
    | some d =>
      simp only [hf] at h
      have := ih h
      simpa [Nat.add_assoc, Nat.add_comm, Nat.add_left_comm] using this
    | none =>
      simp only [hf] at h
      cases hv : m.vtx? v with
      | none => simp [hv] at h
      | some vv =>
        simp only [hv, insert_vertex] at h
        have := ih h
        simpa [Nat.add_assoc, Nat.add_comm, Nat.add_left_comm] using this

theorem edgeLoop_length {m : Mesh} {w : ℚ} :
    ∀ {es : List Nat} {b : Builder} {acc : List Nat} {b' : Builder}
      {l : List Nat}, edgeLoop m w es b acc = some (b', l) →
      l.length = acc.length + es.length := by
  intro es
  induction es with
  | nil =>
    intro b acc b' l h
    simp [edgeLoop] at h
    simp [h.2.symm]
  | cons e rest ih =>
    intro b acc b' l h
    rw [edgeLoop] at h
    cases hr : m.edge? e with
    | none => simp [hr] at h
    | some r =>
      simp only [hr] at h
      cases hf : find_dst_vertex_of b (edgeKey r.start r.endV) with
      | some d =>
        simp only [hf] at h
        have := ih h
        simpa [Nat.add_assoc, Nat.add_comm, Nat.add_left_comm] using this
      | none =>
        simp only [hf] at h
        cases he : edge_rule m e w with
        | none => simp [he] at h
        | some pos =>
          simp only [he, insert_vertex] at h
          have := ih h
          simpa [Nat.add_assoc, Nat.add_comm, Nat.add_left_comm] using this

theorem insert_vertex_inv {b : Builder} {pos : Vec3} {k : SrcKey}
    (hb : BuilderInv b) (hk : k ∉ b.keys) :
    BuilderInv (insert_vertex b pos k).2 := by
  obtain ⟨h1, h2⟩ := hb
  constructor
  · simp only [insert_vertex, Builder.keys, List.map_append, List.map_cons,
      List.map_nil]
    rw [List.nodup_append]
    refine ⟨h1, List.nodup_singleton _, ?_⟩
    intro a ha hmem
    have : a = k := by simpa using hmem
    exact hk (this ▸ ha)
  · simp [insert_vertex, h2]

theorem vertexLoop_inv {m : Mesh} :
    ∀ {vs : List Nat} {b : Builder} {acc : List Nat} {b' : Builder}
      {l : List Nat}, vertexLoop m vs b acc = some (b', l) →
      BuilderInv b → BuilderInv b' := by
  intro vs
  induction vs with
  | nil =>
    intro b acc b' l h hb
    simp [vertexLoop] at h
    exact h.1 ▸ hb
  | cons v rest ih =>
    intro b acc b' l h hb
    rw [vertexLoop] at h
    cases hf : find_dst_vertex_of b (SrcKey.vtx v) with
    | some d =>
      simp only [hf] at h
      exact ih h hb
    | none =>
      simp only [hf] at h
      cases hv : m.vtx? v with
      | none => simp [hv] at h
      | some vv =>
        simp only [hv] at h
        exact ih h
          (insert_vertex_inv hb (find_dst_vertex_of_eq_none.mp hf))

theorem edgeLoop_inv {m : Mesh} {w : ℚ} :
    ∀ {es : List Nat} {b : Builder} {acc : List Nat} {b' : Builder}
      {l : List Nat}, edgeLoop m w es b acc = some (b', l) →
      BuilderInv b → BuilderInv b' := by
  intro es
  induction es with
  | nil =>
    intro b acc b' l h hb
    simp [edgeLoop] at h
    exact h.1 ▸ hb
  | cons e rest ih =>
    intro b acc b' l h hb
    rw [edgeLoop] at h
    cases hr : m.edge? e with
    | none => simp [hr] at h
    | some r =>
      simp only [hr] at h
      cases hf : find_dst_vertex_of b (edgeKey r.start r.endV) with
      | some d =>
        simp only [hf] at h
        exact ih h hb
      | none =>
        simp only [hf] at h
        cases he : edge_rule m e w with
        | none => simp [he] at h
        | some pos =>
          simp only [he] at h
          exact ih h
            (insert_vertex_inv hb (find_dst_vertex_of_eq_none.mp hf))

theorem vertexLoop_tris {m : Mesh} :
    ∀ {vs : List Nat} {b : Builder} {acc : List Nat} {b' : Builder}
      {l : List Nat}, vertexLoop m vs b acc = some (b', l) →
      b'.tris = b.tris := by
  intro vs
  induction vs with
  | nil =>
    intro b acc b' l h
    simp [vertexLoop] at h
    rw [h.1]
  | cons v rest ih =>
    intro b acc b' l h
    rw [vertexLoop] at h
    cases hf : find_dst_vertex_of b (SrcKey.vtx v) with
    | some d =>
      simp only [hf] at h
      exact ih h
    | none =>
      simp only [hf] at h
      cases hv : m.vtx? v with
      | none => simp [hv] at h
      | some vv =>
        simp only [hv] at h
        rw [ih h]
        simp [insert_vertex]

theorem edgeLoop_tris {m : Mesh} {w : ℚ} :
    ∀ {es : List Nat} {b : Builder} {acc : List Nat} {b' : Builder}
      {l : List Nat}, edgeLoop m w es b acc = some (b', l) →
      b'.tris = b.tris := by
  intro es
  induction es with
  | nil =>
    intro b acc b' l h
    simp [edgeLoop] at h
    rw [h.1]
  | cons e rest ih =>
    intro b acc b' l h
    rw [edgeLoop] at h
    cases hr : m.edge? e with
    | none => simp [hr] at h
    | some r =>
      simp only [hr] at h
      cases hf : find_dst_vertex_of b (edgeKey r.start r.endV) with
      | some d =>
        simp only [hf] at h
        exact ih h
      | none =>
        simp only [hf] at h
        cases he : edge_rule m e w with
        | none => simp [he] at h
        | some pos =>
          simp only [he] at h
          rw [ih h]
          simp [insert_vertex]

theorem insertFour_tris {b : Builder} {v0 v1 v2 m0 m1 m2 : Nat} :
    (insertFour b v0 v1 v2 m0 m1 m2).tris =
      b.tris ++ [(v0, m0, m2), (m0, v1, m1), (m2, m1, v2), (m0, m1, m2)] := by
  simp [insertFour, insert_triangle]

theorem insertFour_kmap {b : Builder} {v0 v1 v2 m0 m1 m2 : Nat} :
    (insertFour b v0 v1 v2 m0 m1 m2).kmap = b.kmap := by
  simp [insertFour, insert_triangle]

theorem insertFour_verts {b : Builder} {v0 v1 v2 m0 m1 m2 : Nat} :
    (insertFour b v0 v1 v2 m0 m1 m2).verts = b.verts := by
  simp [insertFour, insert_triangle]

theorem list_len3 {α : Type} {l : List α} (h : l.length = 3) :
    ∃ a b c, l = [a, b, c] := by
  match l, h with
  | [a, b, c], _ => exact ⟨a, b, c, rfl⟩

theorem processFace_spec {m : Mesh} {w : ℚ} {fe : Nat} {b : Builder}
    {tr : List Event} {b' : Builder} {tr' : List Event}
    (h : processFace m w fe (b, tr) = some (b', tr')) :
    ∃ r n p rn b1 vrv b2 erv v0 v1 v2 m0 m1 m2,
      m.edge? fe = some r ∧ EdgeRec.next r = some n ∧
      EdgeRec.prev r = some p ∧ m.edge? n = some rn ∧
      vertexLoop m [EdgeRec.start r, EdgeRec.endV r, EdgeRec.endV rn] b []
        = some (b1, vrv) ∧
      edgeLoop m w [fe, n, p] b1 [] = some (b2, erv) ∧
      vrv = [v0, v1, v2] ∧ erv = [m0, m1, m2] ∧
      b' = insertFour b2 v0 v1 v2 m0 m1 m2 ∧
      tr' = tr ++ [Event.tri, Event.tri, Event.tri, Event.tri] := by
  rw [processFace] at h
  cases hr : m.edge? fe with
  | none => simp [hr] at h
  | some r =>
  simp only [hr] at h
  cases hn : EdgeRec.next r with
  | none => simp [hn] at h
  | some n =>
  cases hp : EdgeRec.prev r with
  | none => simp [hn, hp] at h
  | some p =>
  simp only [hn, hp] at h
  cases hrn : m.edge? n with
  | none => simp [hrn] at h
  | some rn =>
  simp only [hrn] at h
  cases hv : vertexLoop m [EdgeRec.start r, EdgeRec.endV r, EdgeRec.endV rn]
      b [] with
  | none => simp [hv] at h
  | some bv =>
  obtain ⟨b1, vrv⟩ := bv
  simp only [hv] at h
  cases hel : edgeLoop m w [fe, n, p] b1 [] with
  | none => simp [hel] at h
  | some be =>
  obtain ⟨b2, erv⟩ := be
  simp only [hel] at h
  obtain ⟨v0, v1, v2, hvrv⟩ := list_len3 (by simpa using vertexLoop_length hv)
  obtain ⟨m0, m1, m2, herv⟩ := list_len3 (by simpa using edgeLoop_length hel)
  subst hvrv herv
  simp only [emitTriangles, List.get?] at h
  simp only [Option.some.injEq, Prod.mk.injEq] at h
  exact ⟨r, n, p, rn, b1, _, b2, _, v0, v1, v2, m0, m1, m2, rfl, hn, hp,
    hrn, hv, hel, rfl, rfl, h.1.symm, h.2.symm⟩

theorem processFace_inv {m : Mesh} {w : ℚ} {fe : Nat} {b : Builder}
    {tr : List Event} {b' : Builder} {tr' : List Event}
    (h : processFace m w fe (b, tr) = some (b', tr'))
    (hb : BuilderInv b) : BuilderInv b' := by
  obtain ⟨r, n, p, rn, b1, vrv, b2, erv, v0, v1, v2, m0, m1, m2, -, -, -, -,
    hv, hel, -, -, hb', -⟩ := processFace_spec h
  subst hb'
  have i2 := edgeLoop_inv hel (vertexLoop_inv hv hb)
  refine ⟨?_, ?_⟩
  · rw [Builder.keys, insertFour_kmap]
    exact i2.1
  · rw [insertFour_kmap, insertFour_verts]
    exact i2.2

theorem processFace_tris {m : Mesh} {w : ℚ} {fe : Nat} {b : Builder}
    {tr : List Event} {b' : Builder} {tr' : List Event}
    (h : processFace m w fe (b, tr) = some (b', tr')) :
    ∃ v0 v1 v2 m0 m1 m2,
      b'.tris = b.tris ++
        [(v0, m0, m2), (m0, v1, m1), (m2, m1, v2), (m0, m1, m2)] ∧
      tr' = tr ++ [Event.tri, Event.tri, Event.tri, Event.tri] := by
  obtain ⟨r, n, p, rn, b1, vrv, b2, erv, v0, v1, v2, m0, m1, m2, -, -, -, -,
    hv, hel, -, -, hb', htr⟩ := processFace_spec h
  subst hb'
  refine ⟨v0, v1, v2, m0, m1, m2, ?_, htr⟩
  rw [insertFour_tris, edgeLoop_tris hel, vertexLoop_tris hv]

theorem runFaces_inv {m : Mesh} {w : ℚ} :
    ∀ {fs : List Nat} {s s' : Builder × List Event},
      runFaces m w fs s = some s' → BuilderInv s.1 → BuilderInv s'.1 := by
  intro fs
  induction fs with
  | nil =>
    intro s s' h hb
    simp [runFaces] at h
    rw [← h]
    exact hb
  | cons f fs ih =>
    intro s s' h hb
    rw [runFaces] at h
    cases hp : processFace m w f s with
    | none => simp [hp] at h
    | some s1 =>
      simp only [hp, Option.some_bind] at h
      obtain ⟨b, tr⟩ := s
      obtain ⟨b1, tr1⟩ := s1
      exact ih h (processFace_inv hp hb)

theorem runFaces_extend {m : Mesh} {w : ℚ} :
    ∀ {fs : List Nat} {s s' : Builder × List Event},
      runFaces m w fs s = some s' →
      ∃ t, s'.1.tris = s.1.tris ++ t := by
  intro fs
  induction fs with
  | nil =>
    intro s s' h
    simp [runFaces] at h
    exact ⟨[], by rw [← h]; simp⟩
  | cons f fs ih =>
    intro s s' h
    rw [runFaces] at h
    cases hp : processFace m w f s with
    | none => simp [hp] at h
    | some s1 =>
      simp only [hp, Option.some_bind] at h
      obtain ⟨b, tr⟩ := s
      obtain ⟨b1, tr1⟩ := s1
      obtain ⟨q0, q1, q2, q3, q4, q5, hq, -⟩ := processFace_tris hp
      obtain ⟨t, ht⟩ := ih h
      exact ⟨_, by rw [ht, hq, List.append_assoc]⟩

theorem runFaces_trace {m : Mesh} {w : ℚ} :
    ∀ {fs : List Nat} {b : Builder} {tr : List Event} {b' : Builder}
      {tr' : List Event}, runFaces m w fs (b, tr) = some (b', tr') →
      tr' = tr ++ List.replicate (4 * fs.length) Event.tri := by
  intro fs
  induction fs with
  | nil =>
    intro b tr b' tr' h
    simp [runFaces] at h
    simp [← h.2]
  | cons f fs ih =>
    intro b tr b' tr' h
    rw [runFaces] at h
    cases hp : processFace m w f (b, tr) with
    | none => simp [hp] at h
    | some s1 =>
      simp only [hp, Option.some_bind] at h
      obtain ⟨b1, tr1⟩ := s1
      obtain ⟨q0, q1, q2, q3, q4, q5, -, htr1⟩ := processFace_tris hp
      have := ih h
      rw [this, htr1]
      have h4 : 4 * (f :: fs).length = 4 + 4 * fs.length := by
        simp [List.length_cons]
        ring
      rw [h4, List.replicate_add, List.append_assoc]
      rfl

theorem runFaces_slices {m : Mesh} {w : ℚ} :
    ∀ {fs : List Nat} {b : Builder} {tr : List Event} {b' : Builder}
      {tr' : List Event}, runFaces m w fs (b, tr) = some (b', tr') →
      b'.tris.length = b.tris.length + 4 * fs.length ∧
      ∀ i, i < fs.length → ∃ v0 v1 v2 m0 m1 m2,
        (b'.tris.drop (b.tris.length + 4 * i)).take 4 =
          [(v0, m0, m2), (m0, v1, m1), (m2, m1, v2), (m0, m1, m2)] := by
  intro fs
  induction fs with
  | nil =>
    intro b tr b' tr' h
    simp [runFaces] at h
    refine ⟨by rw [← h.1]; simp, ?_⟩
    intro i hi
    simp at hi
  | cons f fs ih =>
    intro b tr b' tr' h
    rw [runFaces] at h
    cases hp : processFace m w f (b, tr) with
    | none => simp [hp] at h
    | some s1 =>
      simp only [hp, Option.some_bind] at h
      obtain ⟨b1, tr1⟩ := s1
      obtain ⟨v0, v1, v2, m0, m1, m2, hq, -⟩ := processFace_tris hp
      obtain ⟨hlen, hsl⟩ := ih h
      have hb1len : b1.tris.length = b.tris.length + 4 := by
        rw [hq]
        simp
      constructor
      · rw [hlen, hb1len]
        simp [List.length_cons]
        ring
      · intro i hi
        cases i with
        | zero =>
          obtain ⟨t, hext⟩ := runFaces_extend h
          refine ⟨v0, v1, v2, m0, m1, m2, ?_⟩
          have : b'.tris = b.tris ++
              ([(v0, m0, m2), (m0, v1, m1), (m2, m1, v2), (m0, m1, m2)]
                ++ t) := by
            rw [hext]
            simp only at hext ⊢
            rw [hq, List.append_assoc]
          rw [this, Nat.mul_zero, Nat.add_zero, List.drop_left]
          exact List.take_left' rfl
        | succ j =>
          have hj : j < fs.length := by
            simp [List.length_cons] at hi
            omega
          obtain ⟨a0, a1, a2, c0, c1, c2, hs⟩ := hsl j hj
          refine ⟨a0, a1, a2, c0, c1, c2, ?_⟩
          rw [← hs]
          have : b.tris.length + 4 * (j + 1) = b1.tris.length + 4 * j := by
            rw [hb1len]
            ring
          rw [this]

theorem edge_rule_eq_some_imp {m : Mesh} {e : Nat} {w : ℚ} {p : Vec3}
    (h : edge_rule m e w = some p) :
    (m.pos? (pathP0 m e)).isSome ∧ (m.pos? (pathP1 m e)).isSome ∧
    (m.pos? (pathP2 m e)).isSome ∧ (m.pos? (pathP3 m e)).isSome ∧
    (m.pos? (pathP4 m e)).isSome ∧ (m.pos? (pathP5 m e)).isSome ∧
    (m.pos? (pathP6 m e)).isSome ∧ (m.pos? (pathP7 m e)).isSome := by
  rw [edge_rule] at h
  cases h0 : m.pos? (pathP0 m e) with
  | none => simp [h0] at h
  | some p0 =>
  simp only [h0, Option.some_bind] at h
  cases h1 : m.pos? (pathP1 m e) with
  | none => simp [h1] at h
  | some p1 =>
  simp only [h1, Option.some_bind] at h
  cases h2 : m.pos? (pathP2 m e) with
  | none => simp [h2] at h
  | some p2 =>
  simp only [h2, Option.some_bind] at h
  cases h3 : m.pos? (pathP3 m e) with
  | none => simp [h3] at h
  | some p3 =>
  simp only [h3, Option.some_bind] at h
  cases h4 : m.pos? (pathP4 m e) with
  | none => simp [h4] at h
  | some p4 =>
  simp only [h4, Option.some_bind] at h
  cases h5 : m.pos? (pathP5 m e) with
  | none => simp [h5] at h
  | some p5 =>
  simp only [h5, Option.some_bind] at h
  cases h6 : m.pos? (pathP6 m e) with
  | none => simp [h6] at h
  | some p6 =>
  simp only [h6, Option.some_bind] at h
  cases h7 : m.pos? (pathP7 m e) with
  | none => simp [h7] at h
  | some p7 =>
  simp [h0, h1, h2, h3, h4, h5, h6, h7]

/-!  The claims.  -/

/-- C1: for every half-edge whose 8-point neighborhood is fully
resolvable (the positions reached by the paths `P0 = e.start`,
`P1 = e.end`, `P2 = e.next.end`, `P3 = e.twin.next.end`,
`P4 = e.next.twin.prev.start`, `P5 = e.prev.twin.prev.start`,
`P6 = e.twin.prev.twin.prev.start`, `P7 = e.twin.next.twin.prev.start`
all exist) and every tension weight `w`, `edge_rule` returns the
position computed independently per coordinate axis as
`0.5·P0 + 0.5·P1 + 2w·P2 + 2w·P3 − w·P4 − w·P5 − w·P6 − w·P7`, and the 8
stencil weights sum to exactly 1 for any `w`, so the result is the
affine combination of exactly these 8 positions with these weights. -/
theorem edge_rule_affine_combination (m : Mesh) (e : Nat) (w : ℚ)
    (p0 p1 p2 p3 p4 p5 p6 p7 : Vec3)
    (h0 : m.pos? (pathP0 m e) = some p0)
    (h1 : m.pos? (pathP1 m e) = some p1)
    (h2 : m.pos? (pathP2 m e) = some p2)
    (h3 : m.pos? (pathP3 m e) = some p3)
    (h4 : m.pos? (pathP4 m e) = some p4)
    (h5 : m.pos? (pathP5 m e) = some p5)
    (h6 : m.pos? (pathP6 m e) = some p6)
    (h7 : m.pos? (pathP7 m e) = some p7) :
    edge_rule m e w = some (affineStencilSpec w p0 p1 p2 p3 p4 p5 p6 p7) ∧
    (stencilWeights w).sum = 1 := by
  constructor
  · simp only [edge_rule, h0, h1, h2, h3, h4, h5, h6, h7, Option.some_bind,
      Option.some.injEq]
    simp only [stencil, affineStencilSpec, Vec3.mk.injEq]
    refine ⟨by ring, by ring, by ring⟩
  · simp only [stencilWeights, List.sum_cons, List.sum_nil]
    ring

/-- Witness for C1 at the tetrahedron's half-edge 0 with `w = 1/16`. -/
theorem edge_rule_affine_combination_witness :
    edge_rule tetraMesh 0 (1/16) =
      some (affineStencilSpec (1/16) ⟨0, 0, 0⟩ ⟨1, 0, 0⟩ ⟨0, 1, 0⟩ ⟨0, 0, 1⟩
        ⟨0, 0, 1⟩ ⟨0, 0, 1⟩ ⟨0, 1, 0⟩ ⟨0, 1, 0⟩) ∧
    (stencilWeights (1/16)).sum = 1 := by
  have h0 : tetraMesh.pos? (pathP0 tetraMesh 0) = some ⟨0, 0, 0⟩ := by decide
  have h1 : tetraMesh.pos? (pathP1 tetraMesh 0) = some ⟨1, 0, 0⟩ := by decide
  have h2 : tetraMesh.pos? (pathP2 tetraMesh 0) = some ⟨0, 1, 0⟩ := by decide
  have h3 : tetraMesh.pos? (pathP3 tetraMesh 0) = some ⟨0, 0, 1⟩ := by decide
  have h4 : tetraMesh.pos? (pathP4 tetraMesh 0) = some ⟨0, 0, 1⟩ := by decide
  have h5 : tetraMesh.pos? (pathP5 tetraMesh 0) = some ⟨0, 0, 1⟩ := by decide
  have h6 : tetraMesh.pos? (pathP6 tetraMesh 0) = some ⟨0, 1, 0⟩ := by decide
  have h7 : tetraMesh.pos? (pathP7 tetraMesh 0) = some ⟨0, 1, 0⟩ := by decide
  exact edge_rule_affine_combination tetraMesh 0 (1/16)
    ⟨0, 0, 0⟩ ⟨1, 0, 0⟩ ⟨0, 1, 0⟩ ⟨0, 0, 1⟩ ⟨0, 0, 1⟩ ⟨0, 0, 1⟩ ⟨0, 1, 0⟩
    ⟨0, 1, 0⟩ h0 h1 h2 h3 h4 h5 h6 h7

/-- C2: `vertex_rule` returns exactly the source vertex's own position,
unchanged; it is a total function of the vertex with no other inputs and
no error conditions. -/
theorem vertex_rule_preserves_position :
    ∀ v : Vertex, vertex_rule v = v.position :=
  fun _ => rfl

/-- C9: each rule loop over the 3 face vertices (resp. 3 face edges)
pushes exactly one destination vertex per iteration, so on success both
result lists have exactly 3 elements and the bounds-checked accesses
`.at(0)`, `.at(1)`, `.at(2)` performed by `emitTriangles` are always in
range: the four `insert_triangle` calls always receive their
arguments. -/
theorem rule_loops_fill_exactly_three (m : Mesh) (w : ℚ)
    (a c d e f g : Nat) (b0 b1 b2 : Builder) (vrv erv : List Nat)
    (hv : vertexLoop m [a, c, d] b0 [] = some (b1, vrv))
    (he : edgeLoop m w [e, f, g] b1 [] = some (b2, erv)) :
    vrv.length = 3 ∧ erv.length = 3 ∧
    ∀ bb : Builder, (emitTriangles bb vrv erv).isSome := by
  have l1 : vrv.length = 3 := by simpa using vertexLoop_length hv
  have l2 : erv.length = 3 := by simpa using edgeLoop_length he
  refine ⟨l1, l2, ?_⟩
  intro bb
  obtain ⟨x, y, z, hx⟩ := list_len3 l1
  obtain ⟨u, v, t, hu⟩ := list_len3 l2
  subst hx hu
  simp [emitTriangles]

/-- Witness for C9 on the first face of the tetrahedron. -/
theorem rule_loops_fill_exactly_three_witness :
    tetraVLl.length = 3 ∧ tetraELl.length = 3 ∧
    ∀ bb : Builder, (emitTriangles bb tetraVLl tetraELl).isSome :=
  rule_loops_fill_exactly_three tetraMesh 0 0 1 2 0 1 2 Builder.empty
    tetraVLb tetraELb tetraVLl tetraELl (by decide) (by rfl)

/-- C7: a missing `twin`/`next`/`prev` link anywhere on the 8-point
stencil makes `edge_rule` return `none` rather than a default position,
and a failing face loop makes the whole refinement return no output at
all: the failure is surfaced to the caller as a hard failure of the
whole pass. -/
theorem missing_link_fails_fast :
    (∀ (m : Mesh) (e : Nat) (w : ℚ),
      (m.pos? (pathP0 m e) = none ∨ m.pos? (pathP1 m e) = none ∨
       m.pos? (pathP2 m e) = none ∨ m.pos? (pathP3 m e) = none ∨
       m.pos? (pathP4 m e) = none ∨ m.pos? (pathP5 m e) = none ∨
       m.pos? (pathP6 m e) = none ∨ m.pos? (pathP7 m e) = none) →
      edge_rule m e w = none) ∧
    (∀ (src : Mesh) (w : ℚ) (checker : Mesh → Bool),
      runFaces src w src.faces (Builder.empty, []) = none →
      butterfly_subdivision src w checker = (none, [])) := by
  constructor
  · intro m e w h
    cases hres : edge_rule m e w with
    | none => rfl
    | some p =>
      exfalso
      have H := edge_rule_eq_some_imp hres
      rcases h with h | h | h | h | h | h | h | h <;> simp [h] at H
  · intro src w checker h
    simp [butterfly_subdivision, h]

/-- Witness for C7: the open triangle, whose boundary edge 0 has no
twin, makes the edge rule fail and the whole refinement return no
output. -/
theorem missing_link_fails_fast_witness :
    edge_rule openTriMesh 0 (1/16) = none ∧
    butterfly_subdivision openTriMesh 0 (fun _ => true) = (none, []) :=
  ⟨missing_link_fails_fast.1 openTriMesh 0 (1/16) (Or.inr (Or.inr (Or.inr
      (Or.inl (by decide))))),
    missing_link_fails_fast.2 openTriMesh 0 (fun _ => true) (by decide)⟩

/-- C10: `edge_rule` navigates the full 8-point neighborhood regardless
of the weight: at `w = 0` it succeeds only when every stencil position
is reachable, and when they all are it returns exactly the midpoint
`0.5·P0 + 0.5·P1`, depending only on the positions of `e.start` and
`e.end`. -/
theorem edge_rule_zero_weight_full_neighborhood :
    (∀ (m : Mesh) (e : Nat) (p : Vec3), edge_rule m e 0 = some p →
      (m.pos? (pathP0 m e)).isSome ∧ (m.pos? (pathP1 m e)).isSome ∧
      (m.pos? (pathP2 m e)).isSome ∧ (m.pos? (pathP3 m e)).isSome ∧
      (m.pos? (pathP4 m e)).isSome ∧ (m.pos? (pathP5 m e)).isSome ∧
      (m.pos? (pathP6 m e)).isSome ∧ (m.pos? (pathP7 m e)).isSome) ∧
    (∀ (m : Mesh) (e : Nat) (p0 p1 p2 p3 p4 p5 p6 p7 : Vec3),
      m.pos? (pathP0 m e) = some p0 → m.pos? (pathP1 m e) = some p1 →
      m.pos? (pathP2 m e) = some p2 → m.pos? (pathP3 m e) = some p3 →
      m.pos? (pathP4 m e) = some p4 → m.pos? (pathP5 m e) = some p5 →
      m.pos? (pathP6 m e) = some p6 → m.pos? (pathP7 m e) = some p7 →
      edge_rule m e 0 = some (midpointV p0 p1)) := by
  constructor
  · intro m e p h
    exact edge_rule_eq_some_imp h
  · intro m e p0 p1 p2 p3 p4 p5 p6 p7 h0 h1 h2 h3 h4 h5 h6 h7
    simp only [edge_rule, h0, h1, h2, h3, h4, h5, h6, h7, Option.some_bind,
      Option.some.injEq]
    simp only [stencil, midpointV, Vec3.mk.injEq]
    refine ⟨by ring, by ring, by ring⟩

/-- Witness for C10 at the tetrahedron's half-edge 0. -/
theorem edge_rule_zero_weight_full_neighborhood_witness :
    ((tetraMesh.pos? (pathP0 tetraMesh 0)).isSome ∧
      (tetraMesh.pos? (pathP1 tetraMesh 0)).isSome ∧
      (tetraMesh.pos? (pathP2 tetraMesh 0)).isSome ∧
      (tetraMesh.pos? (pathP3 tetraMesh 0)).isSome ∧
      (tetraMesh.pos? (pathP4 tetraMesh 0)).isSome ∧
      (tetraMesh.pos? (pathP5 tetraMesh 0)).isSome ∧
      (tetraMesh.pos? (pathP6 tetraMesh 0)).isSome ∧
      (tetraMesh.pos? (pathP7 tetraMesh 0)).isSome) ∧
    edge_rule tetraMesh 0 0 = some (midpointV ⟨0, 0, 0⟩ ⟨1, 0, 0⟩) := by
  have h0 : tetraMesh.pos? (pathP0 tetraMesh 0) = some ⟨0, 0, 0⟩ := by decide
  have h1 : tetraMesh.pos? (pathP1 tetraMesh 0) = some ⟨1, 0, 0⟩ := by decide
  have h2 : tetraMesh.pos? (pathP2 tetraMesh 0) = some ⟨0, 1, 0⟩ := by decide
  have h3 : tetraMesh.pos? (pathP3 tetraMesh 0) = some ⟨0, 0, 1⟩ := by decide
  have h4 : tetraMesh.pos? (pathP4 tetraMesh 0) = some ⟨0, 0, 1⟩ := by decide
  have h5 : tetraMesh.pos? (pathP5 tetraMesh 0) = some ⟨0, 0, 1⟩ := by decide
  have h6 : tetraMesh.pos? (pathP6 tetraMesh 0) = some ⟨0, 1, 0⟩ := by decide
  have h7 : tetraMesh.pos? (pathP7 tetraMesh 0) = some ⟨0, 1, 0⟩ := by decide
  exact ⟨edge_rule_zero_weight_full_neighborhood.1 tetraMesh 0
      (stencil 0 ⟨0, 0, 0⟩ ⟨1, 0, 0⟩ ⟨0, 1, 0⟩ ⟨0, 0, 1⟩ ⟨0, 0, 1⟩ ⟨0, 0, 1⟩
        ⟨0, 1, 0⟩ ⟨0, 1, 0⟩) (by rfl),
    edge_rule_zero_weight_full_neighborhood.2 tetraMesh 0
      ⟨0, 0, 0⟩ ⟨1, 0, 0⟩ ⟨0, 1, 0⟩ ⟨0, 0, 1⟩ ⟨0, 0, 1⟩ ⟨0, 0, 1⟩ ⟨0, 1, 0⟩
      ⟨0, 1, 0⟩ h0 h1 h2 h3 h4 h5 h6 h7⟩

/-- C6: on a consistent pair of twin half-edges (`e.twin = t`,
`t.twin = e`, `t.start = e.end`, `t.end = e.start`) whose 8-point
neighborhood is fully resolvable, the edge rule yields the same position
for `e` and for `t` at every weight `w` (exact arithmetic): the stencil
is invariant under swapping `start`/`end` together with the
corresponding apex and second-ring roles. -/
theorem edge_rule_twin_symmetric (m : Mesh) (e t : Nat) (w : ℚ)
    (r rt : EdgeRec)
    (he : m.edge? e = some r) (ht : m.edge? t = some rt)
    (hrt : EdgeRec.twin r = some t) (htt : EdgeRec.twin rt = some e)
    (hs : EdgeRec.start rt = EdgeRec.endV r)
    (hend : EdgeRec.endV rt = EdgeRec.start r)
    (p0 p1 p2 p3 p4 p5 p6 p7 : Vec3)
    (h0 : m.pos? (pathP0 m e) = some p0)
    (h1 : m.pos? (pathP1 m e) = some p1)
    (h2 : m.pos? (pathP2 m e) = some p2)
    (h3 : m.pos? (pathP3 m e) = some p3)
    (h4 : m.pos? (pathP4 m e) = some p4)
    (h5 : m.pos? (pathP5 m e) = some p5)
    (h6 : m.pos? (pathP6 m e) = some p6)
    (h7 : m.pos? (pathP7 m e) = some p7) :
    edge_rule m t w = edge_rule m e w := by
  have q0 : pathP0 m t = pathP1 m e := by
    simp [pathP0, pathP1, Mesh.startOf, Mesh.endOf, he, ht, hs]
  have q1 : pathP1 m t = pathP0 m e := by
    simp [pathP1, pathP0, Mesh.startOf, Mesh.endOf, he, ht, hend]
  have q2 : pathP2 m t = pathP3 m e := by
    simp [pathP2, pathP3, Mesh.endOf, Mesh.nxt, Mesh.twn, he, ht, hrt]
  have q3 : pathP3 m t = pathP2 m e := by
    simp [pathP3, pathP2, Mesh.endOf, Mesh.nxt, Mesh.twn, he, ht, htt]
  have q4 : pathP4 m t = pathP7 m e := by
    simp [pathP4, pathP7, Mesh.startOf, Mesh.prv, Mesh.twn, Mesh.nxt, he,
      ht, hrt]
  have q5 : pathP5 m t = pathP6 m e := by
    simp [pathP5, pathP6, Mesh.startOf, Mesh.prv, Mesh.twn, he, ht, hrt]
  have q6 : pathP6 m t = pathP5 m e := by
    simp [pathP6, pathP5, Mesh.startOf, Mesh.prv, Mesh.twn, he, ht, htt]
  have q7 : pathP7 m t = pathP4 m e := by
    simp [pathP7, pathP4, Mesh.startOf, Mesh.prv, Mesh.twn, Mesh.nxt, he,
      ht, htt]
  simp only [edge_rule, q0, q1, q2, q3, q4, q5, q6, q7, h0, h1, h2, h3, h4,
    h5, h6, h7, Option.some_bind, Option.some.injEq]
  simp only [stencil, Vec3.mk.injEq]
  refine ⟨by ring, by ring, by ring⟩

/-- Witness for C6 on the glued double triangle: half-edges 0 and 3 are
twins and the rule agrees on them at `w = 1/16`. -/
theorem edge_rule_twin_symmetric_witness :
    edge_rule dblMesh 3 (1/16) = edge_rule dblMesh 0 (1/16) := by
  have he : dblMesh.edge? 0 = some ⟨0, 1, some 1, some 2, some 3⟩ := by
    decide
  have ht : dblMesh.edge? 3 = some ⟨1, 0, some 4, some 5, some 0⟩ := by
    decide
  have h0 : dblMesh.pos? (pathP0 dblMesh 0) = some ⟨0, 0, 0⟩ := by decide
  have h1 : dblMesh.pos? (pathP1 dblMesh 0) = some ⟨1, 0, 0⟩ := by decide
  have h2 : dblMesh.pos? (pathP2 dblMesh 0) = some ⟨0, 1, 0⟩ := by decide
  have h3 : dblMesh.pos? (pathP3 dblMesh 0) = some ⟨0, 1, 0⟩ := by decide
  have h4 : dblMesh.pos? (pathP4 dblMesh 0) = some ⟨0, 0, 0⟩ := by decide
  have h5 : dblMesh.pos? (pathP5 dblMesh 0) = some ⟨1, 0, 0⟩ := by decide
  have h6 : dblMesh.pos? (pathP6 dblMesh 0) = some ⟨0, 0, 0⟩ := by decide
  have h7 : dblMesh.pos? (pathP7 dblMesh 0) = some ⟨1, 0, 0⟩ := by decide
  exact edge_rule_twin_symmetric dblMesh 0 3 (1/16)
    ⟨0, 1, some 1, some 2, some 3⟩ ⟨1, 0, some 4, some 5, some 0⟩
    he ht (by decide) (by decide) (by decide) (by decide)
    ⟨0, 0, 0⟩ ⟨1, 0, 0⟩ ⟨0, 1, 0⟩ ⟨0, 1, 0⟩ ⟨0, 0, 0⟩ ⟨1, 0, 0⟩ ⟨0, 0, 0⟩
    ⟨1, 0, 0⟩ h0 h1 h2 h3 h4 h5 h6 h7

theorem butterfly_subdivision_eq_some {src : Mesh} {w : ℚ}
    {checker : Mesh → Bool} {b : Builder} {dm : Mesh} {ok : Bool}
    {tr : List Event}
    (h : butterfly_subdivision src w checker = (some (b, dm, ok), tr)) :
    ∃ tr0, runFaces src w src.faces (Builder.empty, []) = some (b, tr0) ∧
      finalize b = some dm ∧ ok = checker dm ∧
      tr = tr0 ++ [Event.fin, Event.chk] := by
  rw [butterfly_subdivision] at h
  cases hrf : runFaces src w src.faces (Builder.empty, []) with
  | none => simp [hrf] at h
  | some s =>
    obtain ⟨b0, tr0⟩ := s
    simp only [hrf] at h
    cases hfin : finalize b0 with
    | none => simp [hfin] at h
    | some dm0 =>
      simp only [hfin, Prod.mk.injEq, Option.some.injEq] at h
      obtain ⟨⟨hb, hdm, hok⟩, htr⟩ := h
      subst hb hdm
      exact ⟨tr0, rfl, hfin, hok.symm, htr.symm⟩

/-- C3: within one refinement pass at most one destination vertex is
created per distinct source key (distinct source vertex or distinct
unordered source edge): the deduplication map never records a key twice
and destination vertices are in 1-1 correspondence with recorded keys;
the canonical edge key is unordered, so a half-edge and its twin map to
the same destination vertex; and refining the two-faces-sharing-an-edge
mesh creates exactly 1 destination vertex for the shared edge `{0, 1}`
and 6 destination vertices in total. -/
theorem refinement_deduplicates_sources :
    (∀ (src : Mesh) (w : ℚ) (checker : Mesh → Bool) (b : Builder)
      (dm : Mesh) (ok : Bool) (tr : List Event),
      butterfly_subdivision src w checker = (some (b, dm, ok), tr) →
      b.keys.Nodup ∧ b.verts.length = b.kmap.length) ∧
    (∀ a c : Nat, edgeKey a c = edgeKey c a) ∧
    ((dblBuilder.kmap.filter fun p => p.1 == edgeKey 0 1).length = 1 ∧
      dblBuilder.verts.length = 6) := by
  refine ⟨?_, ?_, ?_, ?_⟩
  · intro src w checker b dm ok tr h
    obtain ⟨tr0, hrf, -, -, -⟩ := butterfly_subdivision_eq_some h
    exact runFaces_inv hrf ⟨by simp [Builder.keys, Builder.empty], rfl⟩
  · intro a c
    rw [edgeKey, edgeKey, Nat.min_comm, Nat.max_comm]
  · decide
  · decide

/-- Witness for C3: the completed tetrahedron run deduplicates. -/
theorem refinement_deduplicates_sources_witness :
    tetraBuilder.keys.Nodup ∧
    tetraBuilder.verts.length = tetraBuilder.kmap.length :=
  refinement_deduplicates_sources.1 tetraMesh 0 (fun _ => true) tetraBuilder
    tetraDst tetraOk tetraTrace (by rfl)

/-- C4: refining a source mesh with `F` faces produces exactly `4F`
destination triangles, and each face contributes, in insertion order,
exactly the 4 child triangles `(v0, m0, m2)`, `(m0, v1, m1)`,
`(m2, m1, v2)`, `(m0, m1, m2)`, where `v0, v1, v2` are the destination
counterparts of the face's vertices in face order (`face.edge.start`,
`face.edge.end`, `face.edge.next.end`) and `m0, m1, m2` those of the
edges `face.edge`, `face.edge.next`, `face.edge.prev`. -/
theorem four_children_per_face :
    (∀ (src : Mesh) (w : ℚ) (checker : Mesh → Bool) (b : Builder)
      (dm : Mesh) (ok : Bool) (tr : List Event),
      butterfly_subdivision src w checker = (some (b, dm, ok), tr) →
      b.tris.length = 4 * src.faces.length ∧
      ∀ i, i < src.faces.length → ∃ v0 v1 v2 m0 m1 m2,
        (b.tris.drop (4 * i)).take 4 =
          [(v0, m0, m2), (m0, v1, m1), (m2, m1, v2), (m0, m1, m2)]) ∧
    (∀ (m : Mesh) (w : ℚ) (fe : Nat) (b : Builder) (tr : List Event)
      (b' : Builder) (tr' : List Event),
      processFace m w fe (b, tr) = some (b', tr') →
      ∃ r n p rn b1 b2 v0 v1 v2 m0 m1 m2,
        m.edge? fe = some r ∧ EdgeRec.next r = some n ∧
        EdgeRec.prev r = some p ∧ m.edge? n = some rn ∧
        vertexLoop m [EdgeRec.start r, EdgeRec.endV r, EdgeRec.endV rn] b []
          = some (b1, [v0, v1, v2]) ∧
        edgeLoop m w [fe, n, p] b1 [] = some (b2, [m0, m1, m2]) ∧
        b'.tris = b2.tris ++
          [(v0, m0, m2), (m0, v1, m1), (m2, m1, v2), (m0, m1, m2)]) := by
  constructor
  · intro src w checker b dm ok tr h
    obtain ⟨tr0, hrf, -, -, -⟩ := butterfly_subdivision_eq_some h
    obtain ⟨hl, hs⟩ := runFaces_slices hrf
    refine ⟨by simpa [Builder.empty] using hl, fun i hi => ?_⟩
    obtain ⟨v0, v1, v2, m0, m1, m2, hsl⟩ := hs i hi
    exact ⟨v0, v1, v2, m0, m1, m2, by
      simpa [Builder.empty] using hsl⟩
  · intro m w fe b tr b' tr' h
    obtain ⟨r, n, p, rn, b1, vrv, b2, erv, v0, v1, v2, m0, m1, m2, hr, hn,
      hp, hrn, hv, hel, hvrv, herv, hb', -⟩ := processFace_spec h
    subst hvrv herv hb'
    exact ⟨r, n, p, rn, b1, b2, v0, v1, v2, m0, m1, m2, hr, hn, hp, hrn,
      hv, hel, insertFour_tris⟩

/-- Witness for C4: the tetrahedron run yields 16 triangles in the
4-per-face pattern. -/
theorem four_children_per_face_witness :
    tetraBuilder.tris.length = 4 * tetraMesh.faces.length ∧
    ∀ i, i < tetraMesh.faces.length → ∃ v0 v1 v2 m0 m1 m2,
      (tetraBuilder.tris.drop (4 * i)).take 4 =
        [(v0, m0, m2), (m0, v1, m1), (m2, m1, v2), (m0, m1, m2)] :=
  four_children_per_face.1 tetraMesh 0 (fun _ => true) tetraBuilder
    tetraDst tetraOk tetraTrace (by rfl)

/-- C8: on every completed run, `finalize` is applied exactly once,
after all faces are processed (the trace is all triangle insertions,
then the single finalize event, then the checker event and nothing
after), the finalized destination mesh is the one handed to the
invariant checker, and the checker's verdict is propagated as the run's
result. -/
theorem finalize_once_then_check (src : Mesh) (w : ℚ)
    (checker : Mesh → Bool) (b : Builder) (dm : Mesh) (ok : Bool)
    (tr : List Event)
    (h : butterfly_subdivision src w checker = (some (b, dm, ok), tr)) :
    finalize b = some dm ∧ ok = checker dm ∧
    tr = List.replicate (4 * src.faces.length) Event.tri ++
      [Event.fin, Event.chk] ∧
    tr.count Event.fin = 1 := by
  obtain ⟨tr0, hrf, hfin, hok, htr⟩ := butterfly_subdivision_eq_some h
  have ht0 : tr0 = List.replicate (4 * src.faces.length) Event.tri := by
    simpa using runFaces_trace hrf
  subst ht0
  refine ⟨hfin, hok, htr, ?_⟩
  rw [htr]
  simp [List.count_append, List.count_replicate, List.count_cons]

/-- Witness for C8 on the completed tetrahedron run. -/
theorem finalize_once_then_check_witness :
    finalize tetraBuilder = some tetraDst ∧
    tetraOk = (fun _ => true) tetraDst ∧
    tetraTrace = List.replicate (4 * tetraMesh.faces.length) Event.tri ++
      [Event.fin, Event.chk] ∧
    tetraTrace.count Event.fin = 1 :=
  finalize_once_then_check tetraMesh 0 (fun _ => true) tetraBuilder
    tetraDst tetraOk tetraTrace (by rfl)

/-- C5: refining the closed tetrahedron with `w = 0` completes and
produces exactly 16 destination triangles, the 4 original vertices
preserved at their original positions, and 6 new vertices — one per original
unordered edge, each at the exact midpoint of its edge's endpoints (the
edge rule degenerating to the midpoint at `w = 0`). -/
theorem tetra_refinement_end_to_end :
    tetraOut.1.isSome = true ∧
    tetraBuilder.tris.length = 16 ∧
    tetraDst.faces.length = 16 ∧
    tetraBuilder.verts.length = 10 ∧
    find_dst_vertex_of tetraBuilder (SrcKey.vtx 0) = some 0 ∧
    find_dst_vertex_of tetraBuilder (SrcKey.vtx 1) = some 1 ∧
    find_dst_vertex_of tetraBuilder (SrcKey.vtx 2) = some 2 ∧
    find_dst_vertex_of tetraBuilder (SrcKey.vtx 3) = some 6 ∧
    tetraBuilder.verts.get? 0 = some ⟨0, 0, 0⟩ ∧
    tetraBuilder.verts.get? 1 = some ⟨1, 0, 0⟩ ∧
    tetraBuilder.verts.get? 2 = some ⟨0, 1, 0⟩ ∧
    tetraBuilder.verts.get? 6 = some ⟨0, 0, 1⟩ ∧
    find_dst_vertex_of tetraBuilder (edgeKey 0 1) = some 3 ∧
    find_dst_vertex_of tetraBuilder (edgeKey 1 2) = some 4 ∧
    find_dst_vertex_of tetraBuilder (edgeKey 0 2) = some 5 ∧
    find_dst_vertex_of tetraBuilder (edgeKey 2 3) = some 7 ∧
    find_dst_vertex_of tetraBuilder (edgeKey 0 3) = some 8 ∧
    find_dst_vertex_of tetraBuilder (edgeKey 1 3) = some 9 ∧
    tetraBuilder.verts.get? 3 = some (midpointV ⟨0, 0, 0⟩ ⟨1, 0, 0⟩) ∧
    tetraBuilder.verts.get? 4 = some (midpointV ⟨1, 0, 0⟩ ⟨0, 1, 0⟩) ∧
    tetraBuilder.verts.get? 5 = some (midpointV ⟨0, 1, 0⟩ ⟨0, 0, 0⟩) ∧
    tetraBuilder.verts.get? 7 = some (midpointV ⟨0, 1, 0⟩ ⟨0, 0, 1⟩) ∧
    tetraBuilder.verts.get? 8 = some (midpointV ⟨0, 0, 1⟩ ⟨0, 0, 0⟩) ∧
    tetraBuilder.verts.get? 9 = some (midpointV ⟨1, 0, 0⟩ ⟨0, 0, 1⟩) := by
  have hsome : tetraOut.1.isSome = true := by decide
  have htris : tetraBuilder.tris.length = 16 := by decide
  have hfaces : tetraDst.faces.length = 16 := by decide
  have hnv : tetraBuilder.verts.length = 10 := by decide
  have kv0 : find_dst_vertex_of tetraBuilder (SrcKey.vtx 0) = some 0 := by
    decide
  have kv1 : find_dst_vertex_of tetraBuilder (SrcKey.vtx 1) = some 1 := by
    decide
  have kv2 : find_dst_vertex_of tetraBuilder (SrcKey.vtx 2) = some 2 := by
    decide
  have kv3 : find_dst_vertex_of tetraBuilder (SrcKey.vtx 3) = some 6 := by
    decide
  have gv0 : tetraBuilder.verts.get? 0 = some ⟨0, 0, 0⟩ := by decide
  have gv1 : tetraBuilder.verts.get? 1 = some ⟨1, 0, 0⟩ := by decide
  have gv2 : tetraBuilder.verts.get? 2 = some ⟨0, 1, 0⟩ := by decide
  have gv6 : tetraBuilder.verts.get? 6 = some ⟨0, 0, 1⟩ := by decide
  have ke01 : find_dst_vertex_of tetraBuilder (edgeKey 0 1) = some 3 := by
    decide
  have ke12 : find_dst_vertex_of tetraBuilder (edgeKey 1 2) = some 4 := by
    decide
  have ke02 : find_dst_vertex_of tetraBuilder (edgeKey 0 2) = some 5 := by
    decide
  have ke23 : find_dst_vertex_of tetraBuilder (edgeKey 2 3) = some 7 := by
    decide
  have ke03 : find_dst_vertex_of tetraBuilder (edgeKey 0 3) = some 8 := by
    decide
  have ke13 : find_dst_vertex_of tetraBuilder (edgeKey 1 3) = some 9 := by
    decide
  have gm3 : tetraBuilder.verts.get? 3 =
      some (midpointV ⟨0, 0, 0⟩ ⟨1, 0, 0⟩) := by
    have g : tetraBuilder.verts.get? 3 = some (stencil 0 ⟨0, 0, 0⟩
        ⟨1, 0, 0⟩ ⟨0, 1, 0⟩ ⟨0, 0, 1⟩ ⟨0, 0, 1⟩ ⟨0, 0, 1⟩ ⟨0, 1, 0⟩
        ⟨0, 1, 0⟩) := by rfl
    rw [g]
    simp only [stencil, midpointV, Option.some.injEq, Vec3.mk.injEq]
    norm_num
  have gm4 : tetraBuilder.verts.get? 4 =
      some (midpointV ⟨1, 0, 0⟩ ⟨0, 1, 0⟩) := by
    have g : tetraBuilder.verts.get? 4 = some (stencil 0 ⟨1, 0, 0⟩
        ⟨0, 1, 0⟩ ⟨0, 0, 0⟩ ⟨0, 0, 1⟩ ⟨0, 0, 1⟩ ⟨0, 0, 1⟩ ⟨0, 0, 0⟩
        ⟨0, 0, 0⟩) := by rfl
    rw [g]
    simp only [stencil, midpointV, Option.some.injEq, Vec3.mk.injEq]
    norm_num
  have gm5 : tetraBuilder.verts.get? 5 =
      some (midpointV ⟨0, 1, 0⟩ ⟨0, 0, 0⟩) := by
    have g : tetraBuilder.verts.get? 5 = some (stencil 0 ⟨0, 1, 0⟩
        ⟨0, 0, 0⟩ ⟨1, 0, 0⟩ ⟨0, 0, 1⟩ ⟨0, 0, 1⟩ ⟨0, 0, 1⟩ ⟨1, 0, 0⟩
        ⟨1, 0, 0⟩) := by rfl
    rw [g]
    simp only [stencil, midpointV, Option.some.injEq, Vec3.mk.injEq]
    norm_num
  have gm7 : tetraBuilder.verts.get? 7 =
      some (midpointV ⟨0, 1, 0⟩ ⟨0, 0, 1⟩) := by
    have g : tetraBuilder.verts.get? 7 = some (stencil 0 ⟨0, 1, 0⟩
        ⟨0, 0, 1⟩ ⟨0, 0, 0⟩ ⟨1, 0, 0⟩ ⟨1, 0, 0⟩ ⟨1, 0, 0⟩ ⟨0, 0, 0⟩
        ⟨0, 0, 0⟩) := by rfl
    rw [g]
    simp only [stencil, midpointV, Option.some.injEq, Vec3.mk.injEq]
    norm_num
  have gm8 : tetraBuilder.verts.get? 8 =
      some (midpointV ⟨0, 0, 1⟩ ⟨0, 0, 0⟩) := by
    have g : tetraBuilder.verts.get? 8 = some (stencil 0 ⟨0, 0, 1⟩
        ⟨0, 0, 0⟩ ⟨0, 1, 0⟩ ⟨1, 0, 0⟩ ⟨1, 0, 0⟩ ⟨1, 0, 0⟩ ⟨0, 1, 0⟩
        ⟨0, 1, 0⟩) := by rfl
    rw [g]
    simp only [stencil, midpointV, Option.some.injEq, Vec3.mk.injEq]
    norm_num
  have gm9 : tetraBuilder.verts.get? 9 =
      some (midpointV ⟨1, 0, 0⟩ ⟨0, 0, 1⟩) := by
    have g : tetraBuilder.verts.get? 9 = some (stencil 0 ⟨0, 0, 1⟩
        ⟨1, 0, 0⟩ ⟨0, 0, 0⟩ ⟨0, 1, 0⟩ ⟨0, 1, 0⟩ ⟨0, 1, 0⟩ ⟨0, 0, 0⟩
        ⟨0, 0, 0⟩) := by rfl
    rw [g]
    simp only [stencil, midpointV, Option.some.injEq, Vec3.mk.injEq]
    norm_num
  exact ⟨hsome, htris, hfaces, hnv, kv0, kv1, kv2, kv3, gv0, gv1, gv2, gv6,
    ke01, ke12, ke02, ke23, ke03, ke13, gm3, gm4, gm5, gm7, gm8, gm9⟩

end Butterfly
